import Mathlib

/-!
Shallow embedding of the conversation-orchestration engine of the
dsa-mod-planning-chatbot repository.

The embedded code comes from:
* `app/chat_graph.py` — history management (`_trim`, `_condense_history`),
  router and retrieval graph nodes, and the post-turn bookkeeping of
  `ChatService.ask` (stored state, answer extraction, caller-facing history
  payload);
* `app/grading.py` — the layered score parser of the response grader
  (`_extract_json_object`, the `SCORE_PATTERN` regex fallback, `_parse_scores`)
  and the evaluation assembly of `ResponseGrader.grade`;
* `app/backend.py` — the empty-prompt validation of the `/api/chat` handler;
* `app/ui.py` — the empty-field validation guarding the grade request.

Modelling conventions: Python strings are Lean `String`s manipulated through
their underlying character lists so that every definition reduces inside the
kernel; Python `str.strip`/`str.lower`/`in` are embedded as `pyStrip`,
`pyLower` and `pyIn` over ASCII (the inputs the engine handles); JSON numbers
are modelled as rationals (`ℚ`), which agrees with Python floats on the
one-decimal score values the grader manipulates; external model invocations
are not executed — functions take the raw model reply (and its parse outcome)
as an argument and the embedding records whether a model/index call would
have been made.
-/

namespace DsaChat

/-- Python `str.strip()` on a character list: drop whitespace from both ends. -/
def pyStripList (l : List Char) : List Char :=
  ((l.dropWhile Char.isWhitespace).reverse.dropWhile Char.isWhitespace).reverse

/-- Python `str.strip()` on a string. -/
def pyStrip (s : String) : String :=
  String.mk (pyStripList s.data)

/-- Python `str.lower()` (ASCII case folding, which covers the engine's tokens). -/
def pyLower (s : String) : String :=
  String.mk (s.data.map Char.toLower)

/-- Check that `needle` occurs at the head of `haystack`. -/
def listStarts : List Char → List Char → Bool
  | [], _ => true
  | _ :: _, [] => false
  | c :: cs, d :: ds => c == d && listStarts cs ds

/-- Check that `needle` occurs anywhere inside `haystack`. -/
def listContains (needle : List Char) : List Char → Bool
  | [] => needle.isEmpty
  | d :: ds => listStarts needle (d :: ds) || listContains needle ds

/-- Python's substring test `needle in haystack`. -/
def pyIn (needle haystack : String) : Bool :=
  listContains needle.data haystack.data

/-- Message roles of the LangChain message classes used by the engine
(`HumanMessage`, `AIMessage`, `ToolMessage`, `SystemMessage`). -/
inductive Role where
  | user
  | assistant
  | tool
  | system
  deriving DecidableEq, Repr

/-- Shallow embedding of a LangChain message: its class (role), its `content`
string, and whether tool-call metadata (`tool_calls` / `additional_kwargs`)
is attached.  Condensation rebuilds messages from the bare content, which is
what drops the metadata. -/
structure Msg where
  role : Role
  content : String
  hasToolCalls : Bool := false
  deriving DecidableEq, Repr

/-- Fresh `HumanMessage(content=...)` as built inside `_condense_history`. -/
def rebuiltUser (m : Msg) : Msg :=
  { role := Role.user, content := m.content, hasToolCalls := false }

/-- Fresh `AIMessage(content=...)` as built inside `_condense_history`. -/
def rebuiltAssistant (m : Msg) : Msg :=
  { role := Role.assistant, content := m.content, hasToolCalls := false }

/-- Embedding of `chat_graph._trim`: keep at most `max_history * 2` most
recent messages; non-positive budgets clear the history.  `max_history` is a
Python `int`, hence `Int` here. -/
def _trim (messages : List Msg) (max_history : Int) : List Msg :=
  let max_messages := max_history * 2
  if max_messages ≤ 0 then
    []
  else if (messages.length : Int) ≤ max_messages then
    messages
  else
    messages.drop (messages.length - max_messages.toNat)

/-- Loop body of `chat_graph._condense_history`: walk the messages carrying
the `pending_human` accumulator; a user message replaces the pending human, an
assistant message is paired with the pending human when one exists and kept
standalone otherwise, every other kind is skipped; a leftover pending human is
appended at the end. -/
def condenseWalk : List Msg → Option Msg → List Msg
  | [], none => []
  | [], some pending => [pending]
  | m :: rest, pending =>
    match m.role with
    | Role.user => condenseWalk rest (some (rebuiltUser m))
    | Role.assistant =>
      match pending with
      | some h => h :: rebuiltAssistant m :: condenseWalk rest none
      | none => rebuiltAssistant m :: condenseWalk rest none
    | _ => condenseWalk rest pending

/-- Embedding of `chat_graph._condense_history`: the condensing walk followed
by `_trim`. -/
def _condense_history (messages : List Msg) (max_history : Int) : List Msg :=
  _trim (condenseWalk messages none) max_history

mutual

/-- Modelled from the spec (§4.1 History Manager), for comparison with the
source `_condense_history`: walk the sequence and pair each user message with
the first following assistant message into one condensed turn; assistant
messages with no preceding pending user message are kept standalone; all
other message kinds are discarded; a trailing unanswered user message is
preserved unpaired.  `condenseSpecPair u rest` scans `rest` for the
assistant reply that answers the pending condensed user message `u`. -/
def condenseSpecCore : List Msg → List Msg
  | [] => []
  | m :: rest =>
    match m.role with
    | Role.user => condenseSpecPair (rebuiltUser m) rest
    | Role.assistant => rebuiltAssistant m :: condenseSpecCore rest
    | _ => condenseSpecCore rest

/-- Companion walk of `condenseSpecCore` holding the pending user message. -/
def condenseSpecPair (u : Msg) : List Msg → List Msg
  | [] => [u]
  | m :: rest =>
    match m.role with
    | Role.user => condenseSpecPair (rebuiltUser m) rest
    | Role.assistant => u :: rebuiltAssistant m :: condenseSpecCore rest
    | _ => condenseSpecPair u rest

end

/-- Spec-side condense (§4.1): the pairing walk, then `trim`. -/
def condenseSpec (messages : List Msg) (maxHistoryTurns : Int) : List Msg :=
  _trim (condenseSpecCore messages) maxHistoryTurns

/-- Stored `SessionState` written by `ChatService.ask` after a completed turn
(`chat_graph.py` lines 393–395): the condensed form of the final graph
state's full message sequence. -/
def askStoredState (finalMessages : List Msg) (max_history : Int) : List Msg :=
  _condense_history finalMessages max_history

/-- Answer extraction of `ChatService.ask` (`chat_graph.py` lines 421–425):
scan the stored messages in reverse and return the content of the first
`AIMessage` found, defaulting to the empty string. -/
def askAnswer (stored : List Msg) : String :=
  match stored.reverse.find? (fun m => m.role == Role.assistant) with
  | some m => m.content
  | none => ""

/-- Modelled from the spec (§4.5 Conversation Session), for comparison with
the source answer extraction: the content of the most recent assistant
message whose content is non-empty, skipping assistant messages that carry no
human-readable text; `none` when there is no such message. -/
def specAnswer (stored : List Msg) : Option String :=
  (stored.reverse.find?
    (fun m => m.role == Role.assistant && !(pyStrip m.content == ""))).map
    (fun m => m.content)

/-- Embedding of `chat_graph._role_for_message`. -/
def _role_for_message (m : Msg) : String :=
  match m.role with
  | Role.user => "user"
  | Role.assistant => "assistant"
  | Role.tool => "tool"
  | Role.system => "system"

/-- Caller-facing history entry (`{role, content, metadata}`); metadata is
serialisation plumbing and carries no information the claims mention. -/
structure HistoryEntry where
  role : String
  content : String
  deriving DecidableEq, Repr

/-- Caller-facing history assembly of `ChatService.ask` (`chat_graph.py`
lines 427–447): keep only `HumanMessage`/`AIMessage` entries, and skip
`AIMessage`s whose content is blank after stripping. -/
def askHistoryPayload (stored : List Msg) : List HistoryEntry :=
  stored.filterMap (fun m =>
    if !(m.role == Role.user || m.role == Role.assistant) then
      none
    else if m.role == Role.assistant && pyStrip m.content == "" then
      none
    else
      some { role := _role_for_message m, content := m.content })

/-- Outcome of the `/api/chat` handler validation (`backend.py` lines 46–66):
either an error response, or the turn proceeds into `ChatService.ask`. -/
structure ChatEndpointOutcome where
  error : Option (String × Nat)
  askCalled : Bool
  deriving DecidableEq, Repr

/-- Embedding of the prompt validation of `backend.chat`: the prompt is
stripped and an empty result is rejected with a 400 response before
`chat_service.ask` (and hence any model invocation) runs. -/
def chat_endpoint (prompt : String) : ChatEndpointOutcome :=
  if pyStrip prompt == "" then
    { error := some ("prompt is required", 400), askCalled := false }
  else
    { error := none, askCalled := true }

/-- Outcome of the grade-request validation: either an error message shown to
the caller, or the grading request (and with it the judge-model call) is
issued. -/
structure GradeRequestOutcome where
  error : Option String
  requestSent : Bool
  deriving DecidableEq, Repr

/-- Embedding of the grading-field validation of `ui.py` (lines 831–839):
each of question / ground truth / assistant response must be non-empty after
stripping before the grade request is sent. -/
def grade_request (question ground_truth answer : String) : GradeRequestOutcome :=
  if pyStrip question == "" then
    { error := some "Question is required for grading.", requestSent := false }
  else if pyStrip ground_truth == "" then
    { error := some "Ground truth is required for grading.", requestSent := false }
  else if pyStrip answer == "" then
    { error := some "Assistant response is required for grading.", requestSent := false }
  else
    { error := none, requestSent := true }

/-- Parse outcome of `json.loads` on the router reply (`chat_graph.py` lines
330–339): either a dict whose `decision` and `query` entries have been
string-coerced (absent keys default to the empty string, as in
`str(parsed.get("decision", ""))`), or the except-branch case — a decode
error, or a non-dict value whose `.get` raises `AttributeError`. -/
inductive RouterParse where
  | obj (decision : String) (query : String)
  | malformed
  deriving DecidableEq, Repr

/-- Result of `router_node`: the routing decision (`"assistant"` encodes
proceed, `"retrieve_requirements"` encodes retrieve), the optional search
query, and whether the router invoked the model. -/
structure RouterOutput where
  router_decision : String
  router_query : Option String
  modelCalled : Bool
  deriving DecidableEq, Repr

/-- Embedding of `router_node` (`chat_graph.py` lines 289–341).  The model
reply is passed in as its raw text together with its parse outcome; when
retrieval is disabled, or the state has no messages, the node returns
`proceed` before the model is invoked. -/
def router_node (retrieverEnabled : Bool) (messages : List Msg)
    (replyRaw : String) (replyParse : RouterParse) : RouterOutput :=
  if !retrieverEnabled then
    { router_decision := "assistant", router_query := none, modelCalled := false }
  else if messages.isEmpty then
    { router_decision := "assistant", router_query := none, modelCalled := false }
  else
    match replyParse with
    | RouterParse.obj decision query =>
      let decision_value := pyLower (pyStrip decision)
      let router_decision :=
        if decision_value == "retrieve" then "retrieve_requirements" else "assistant"
      let q := pyStrip query
      { router_decision := router_decision
        router_query := if q == "" then none else some q
        modelCalled := true }
    | RouterParse.malformed =>
      let decision_value := pyLower (pyStrip replyRaw)
      { router_decision :=
          if pyIn "retrieve" decision_value then "retrieve_requirements" else "assistant"
        router_query := none
        modelCalled := true }

/-- Retrieved document (`langchain` `Document`): only the page content is
relevant to the engine's logic. -/
structure Doc where
  page_content : String
  deriving DecidableEq, Repr

/-- Result of `retrieve_node`: the documents placed into the state and
whether the similarity index was queried. -/
structure RetrieveOutput where
  retrieved_docs : List Doc
  indexQueried : Bool
  deriving DecidableEq, Repr

/-- Embedding of `retrieve_node` (`chat_graph.py` lines 248–266) together
with the retriever wiring of `_build_graph` (lines 243–247): when retrieval
is disabled the retriever is `None` and the node returns empty immediately;
otherwise the effective query is the router query when non-empty, else the
last message's content, and an empty effective query also returns empty with
no index access.  The injected index stands for `retriever.invoke`. -/
def retrieve_node (retrieverEnabled : Bool) (messages : List Msg)
    (router_query : Option String) (index : String → List Doc) : RetrieveOutput :=
  if !retrieverEnabled then
    { retrieved_docs := [], indexQueried := false }
  else
    match messages.getLast? with
    | none => { retrieved_docs := [], indexQueried := false }
    | some lastMsg =>
      let q0 := router_query.getD ""
      let query := if q0 == "" then lastMsg.content else q0
      if query == "" then
        { retrieved_docs := [], indexQueried := false }
      else
        { retrieved_docs := index query, indexQueried := true }

/-! ### History-manager lemmas -/

theorem _trim_eq_nil (messages : List Msg) (n : Int) (h : n ≤ 0) :
    _trim messages n = [] := by
  have h2 : n * 2 ≤ 0 := by omega
  simp [_trim, h2]

theorem _trim_of_le (l : List Msg) (n : Int) (h : ¬ n * 2 ≤ 0)
    (h2 : (l.length : Int) ≤ n * 2) : _trim l n = l := by
  simp [_trim, h, h2]

theorem _trim_cases (messages : List Msg) (n : Int) :
    _trim messages n = [] ∨ ∃ k, _trim messages n = messages.drop k := by
  by_cases h : n * 2 ≤ 0
  · left
    simp [_trim, h]
  · right
    by_cases h2 : (messages.length : Int) ≤ n * 2
    · exact ⟨0, by simp [_trim, h, h2]⟩
    · exact ⟨messages.length - (n * 2).toNat, by simp [_trim, h, h2]⟩

theorem _trim_length_le (messages : List Msg) (n : Int) :
    (_trim messages n).length ≤ (n * 2).toNat := by
  by_cases h : n * 2 ≤ 0
  · simp [_trim, h]
  · by_cases h2 : (messages.length : Int) ≤ n * 2
    · simp only [_trim, if_neg h, if_pos h2]
      omega
    · simp only [_trim, if_neg h, if_neg h2, List.length_drop]
      omega

theorem _trim_is_suffix (messages : List Msg) (n : Int) :
    _trim messages n <:+ messages := by
  rcases _trim_cases messages n with h | ⟨k, h⟩
  · rw [h]
    exact List.nil_suffix
  · rw [h]
    exact List.drop_suffix k messages

theorem _trim_idem (messages : List Msg) (n : Int) :
    _trim (_trim messages n) n = _trim messages n := by
  by_cases h : n ≤ 0
  · rw [_trim_eq_nil messages n h, _trim_eq_nil [] n h]
  · have hmul : ¬ n * 2 ≤ 0 := by omega
    apply _trim_of_le _ n hmul
    have := _trim_length_le messages n
    omega

/-- Shape invariant of condensed histories: every message is a metadata-free
user or assistant message, and a user message is followed by an assistant
message unless it closes the list. -/
inductive Condensed : List Msg → Prop where
  | nil : Condensed []
  | lastUser (m : Msg) : m.role = Role.user → m.hasToolCalls = false →
      Condensed [m]
  | consA (m : Msg) (l : List Msg) : m.role = Role.assistant →
      m.hasToolCalls = false → Condensed l → Condensed (m :: l)
  | consUA (u a : Msg) (l : List Msg) : u.role = Role.user →
      u.hasToolCalls = false → a.role = Role.assistant → a.hasToolCalls = false →
      Condensed (a :: l) → Condensed (u :: a :: l)

theorem condenseWalk_condensed (ms : List Msg) :
    Condensed (condenseWalk ms none) ∧
      ∀ u : Msg, u.role = Role.user → u.hasToolCalls = false →
        Condensed (condenseWalk ms (some u)) := by
  induction ms with
  | nil =>
    exact ⟨Condensed.nil, fun u hu hut => Condensed.lastUser u hu hut⟩
  | cons m rest ih =>
    obtain ⟨ih1, ih2⟩ := ih
    cases m with
    | mk role content htc =>
      cases role with
      | user =>
        refine ⟨?_, fun u hu hut => ?_⟩
        · simpa [condenseWalk] using ih2 (rebuiltUser ⟨Role.user, content, htc⟩) rfl rfl
        · simpa [condenseWalk] using ih2 (rebuiltUser ⟨Role.user, content, htc⟩) rfl rfl
      | assistant =>
        refine ⟨?_, fun u hu hut => ?_⟩
        · exact Condensed.consA _ _ rfl rfl ih1
        · exact Condensed.consUA u _ _ hu hut rfl rfl (Condensed.consA _ _ rfl rfl ih1)
      | tool =>
        exact ⟨by simpa [condenseWalk] using ih1,
          fun u hu hut => by simpa [condenseWalk] using ih2 u hu hut⟩
      | system =>
        exact ⟨by simpa [condenseWalk] using ih1,
          fun u hu hut => by simpa [condenseWalk] using ih2 u hu hut⟩

theorem condensed_mem_roles {l : List Msg} (h : Condensed l) :
    ∀ m ∈ l, (m.role = Role.user ∨ m.role = Role.assistant) ∧
      m.hasToolCalls = false := by
  induction h with
  | nil =>
    intro m hm
    simp at hm
  | lastUser m hr ht =>
    intro x hx
    rw [List.mem_singleton] at hx
    subst hx
    exact ⟨Or.inl hr, ht⟩
  | consA m l hr ht hc ih =>
    intro x hx
    rcases List.mem_cons.mp hx with rfl | hx
    · exact ⟨Or.inr hr, ht⟩
    · exact ih x hx
  | consUA u a l hu hut ha hat hc ih =>
    intro x hx
    rcases List.mem_cons.mp hx with rfl | hx
    · exact ⟨Or.inl hu, hut⟩
    · exact ih x hx

theorem condensed_user_followed {l : List Msg} (h : Condensed l) :
    ∀ (i : Nat) (h1 : i < l.length) (h2 : i + 1 < l.length),
      (l.get ⟨i, h1⟩).role = Role.user →
        (l.get ⟨i + 1, h2⟩).role = Role.assistant := by
  induction h with
  | nil =>
    intro i h1 h2 hu
    simp at h1
  | lastUser m hr ht =>
    intro i h1 h2 hu
    simp at h2
  | consA m l hr ht hc ih =>
    intro i h1 h2 hu
    cases i with
    | zero =>
      simp at hu
      rw [hu] at hr
      cases hr
    | succ j =>
      have h1' : j < l.length := by simpa using h1
      have h2' : j + 1 < l.length := by simpa using h2
      simpa using ih j h1' h2' (by simpa using hu)
  | consUA u a l hu hut ha hat hc ih =>
    intro i h1 h2 hx
    cases i with
    | zero =>
      simpa using ha
    | succ j =>
      have h1' : j < (a :: l).length := by simpa using h1
      have h2' : j + 1 < (a :: l).length := by simpa using h2
      simpa using ih j h1' h2' (by simpa using hx)

theorem condensed_walk_id {l : List Msg} (h : Condensed l) :
    condenseWalk l none = l := by
  induction h with
  | nil => rfl
  | lastUser m hr ht =>
    cases m with
    | mk role content htc =>
      simp only at hr ht
      subst hr
      subst ht
      simp [condenseWalk, rebuiltUser]
  | consA m l hr ht hc ih =>
    cases m with
    | mk role content htc =>
      simp only at hr ht
      subst hr
      subst ht
      simp [condenseWalk, rebuiltAssistant, ih]
  | consUA u a l hu hut ha hat hc ih =>
    cases u with
    | mk urole ucontent uhtc =>
      cases a with
      | mk arole acontent ahtc =>
        simp only at hu hut ha hat
        subst hu
        subst hut
        subst ha
        subst hat
        have hwl : condenseWalk l none = l := by
          have := ih
          simp only [condenseWalk, rebuiltAssistant] at this
          exact (List.cons.injEq _ _ _ _).mp this |>.2
        simp [condenseWalk, rebuiltUser, rebuiltAssistant, hwl]

theorem condensed_drop {l : List Msg} (h : Condensed l) :
    ∀ k, Condensed (l.drop k) := by
  induction h with
  | nil =>
    intro k
    simpa using Condensed.nil
  | lastUser m hr ht =>
    intro k
    cases k with
    | zero => exact Condensed.lastUser m hr ht
    | succ j =>
      simpa using Condensed.nil
  | consA m l hr ht hc ih =>
    intro k
    cases k with
    | zero => exact Condensed.consA m l hr ht hc
    | succ j => simpa using ih j
  | consUA u a l hu hut ha hat hc ih =>
    intro k
    cases k with
    | zero => exact Condensed.consUA u a l hu hut ha hat hc
    | succ j => simpa using ih j

theorem condensed_condense_history (ms : List Msg) (n : Int) :
    Condensed (_condense_history ms n) := by
  have hw : Condensed (condenseWalk ms none) := (condenseWalk_condensed ms).1
  rcases _trim_cases (condenseWalk ms none) n with h | ⟨k, h⟩
  · rw [_condense_history, h]
    exact Condensed.nil
  · rw [_condense_history, h]
    exact condensed_drop hw k

theorem condenseWalk_eq_spec (ms : List Msg) :
    condenseWalk ms none = condenseSpecCore ms ∧
      ∀ u : Msg, condenseWalk ms (some u) = condenseSpecPair u ms := by
  induction ms with
  | nil =>
    exact ⟨by simp [condenseWalk, condenseSpecCore],
      fun u => by simp [condenseWalk, condenseSpecPair]⟩
  | cons m rest ih =>
    obtain ⟨ih1, ih2⟩ := ih
    cases m with
    | mk role content htc =>
      cases role with
      | user =>
        exact ⟨by simp [condenseWalk, condenseSpecCore, ih2],
          fun u => by simp [condenseWalk, condenseSpecPair, ih2]⟩
      | assistant =>
        exact ⟨by simp [condenseWalk, condenseSpecCore, ih1],
          fun u => by simp [condenseWalk, condenseSpecPair, ih1]⟩
      | tool =>
        exact ⟨by simp [condenseWalk, condenseSpecCore, ih1],
          fun u => by simp [condenseWalk, condenseSpecPair, ih2]⟩
      | system =>
        exact ⟨by simp [condenseWalk, condenseSpecCore, ih1],
          fun u => by simp [condenseWalk, condenseSpecPair, ih2]⟩

theorem condenseWalk_trailing_user (u : Msg) (hu : u.role = Role.user) :
    ∀ (pre : List Msg) (pending : Option Msg),
      ∃ l, condenseWalk (pre ++ [u]) pending = l ++ [rebuiltUser u] := by
  intro pre
  induction pre with
  | nil =>
    intro pending
    cases u with
    | mk role content htc =>
      simp only at hu
      subst hu
      exact ⟨[], by simp [condenseWalk]⟩
  | cons m rest ih =>
    intro pending
    cases m with
    | mk role content htc =>
      cases role with
      | user =>
        obtain ⟨l, hl⟩ := ih (some (rebuiltUser ⟨Role.user, content, htc⟩))
        exact ⟨l, by simpa [condenseWalk] using hl⟩
      | assistant =>
        cases pending with
        | none =>
          obtain ⟨l, hl⟩ := ih none
          exact ⟨rebuiltAssistant ⟨Role.assistant, content, htc⟩ :: l,
            by simp [condenseWalk, hl]⟩
        | some h =>
          obtain ⟨l, hl⟩ := ih none
          exact ⟨h :: rebuiltAssistant ⟨Role.assistant, content, htc⟩ :: l,
            by simp [condenseWalk, hl]⟩
      | tool =>
        obtain ⟨l, hl⟩ := ih pending
        exact ⟨l, by simpa [condenseWalk] using hl⟩
      | system =>
        obtain ⟨l, hl⟩ := ih pending
        exact ⟨l, by simpa [condenseWalk] using hl⟩

/-! ### Answer-extraction lemmas -/

theorem find?_append_of_none {α : Type} (p : α → Bool) (l1 l2 : List α)
    (h : ∀ m ∈ l1, p m = false) : (l1 ++ l2).find? p = l2.find? p := by
  induction l1 with
  | nil => simp
  | cons x xs ih =>
    have hx : p x = false := h x (List.mem_cons_self x xs)
    simp only [List.cons_append, List.find?_cons, hx]
    exact ih (fun m hm => h m (List.mem_cons_of_mem x hm))

/-! ### Strip lemmas -/

theorem pyStripList_eq_nil_iff (l : List Char) :
    pyStripList l = [] ↔ ∀ c ∈ l, c.isWhitespace = true := by
  unfold pyStripList
  constructor
  · intro h c hc
    have h1 : (l.dropWhile Char.isWhitespace).reverse.dropWhile Char.isWhitespace = [] := by
      rw [← List.reverse_eq_nil_iff]
      exact h
    have h2 : ∀ c ∈ (l.dropWhile Char.isWhitespace).reverse, Char.isWhitespace c :=
      List.dropWhile_eq_nil_iff.mp h1
    have h3 : ∀ c ∈ l.dropWhile Char.isWhitespace, c.isWhitespace = true := by
      intro c hc2
      exact h2 c (List.mem_reverse.mpr hc2)
    have hsplit := List.takeWhile_append_dropWhile (p := Char.isWhitespace) (l := l)
    rw [← hsplit] at hc
    rcases List.mem_append.mp hc with hc' | hc'
    · exact List.mem_takeWhile_imp hc'
    · exact h3 c hc'
  · intro h
    have h1 : l.dropWhile Char.isWhitespace = [] :=
      List.dropWhile_eq_nil_iff.mpr (fun c hc => h c hc)
    simp [h1]

theorem pyStrip_eq_empty_iff (s : String) :
    pyStrip s = "" ↔ ∀ c ∈ s.data, c.isWhitespace = true := by
  have hmk : pyStrip s = "" ↔ pyStripList s.data = [] := by
    constructor
    · intro h
      exact congrArg String.data h
    · intro h
      exact congrArg String.mk h
  rw [hmk, pyStripList_eq_nil_iff]

/-! ### Substring lemmas for the router fallback -/

theorem listStarts_iff : ∀ n h : List Char, listStarts n h = true ↔ ∃ t, h = n ++ t
  | [], h => by
    simp [listStarts]
  | c :: cs, [] => by
    simp [listStarts]
  | c :: cs, d :: ds => by
    rw [show listStarts (c :: cs) (d :: ds) = (c == d && listStarts cs ds) from rfl,
      Bool.and_eq_true, beq_iff_eq, listStarts_iff cs ds]
    constructor
    · rintro ⟨rfl, t, rfl⟩
      exact ⟨t, rfl⟩
    · rintro ⟨t, ht⟩
      rw [List.cons_append] at ht
      injection ht with h1 h2
      exact ⟨h1.symm, t, h2⟩

theorem listContains_iff : ∀ n h : List Char,
    listContains n h = true ↔ ∃ s t, h = s ++ n ++ t
  | n, [] => by
    rw [show listContains n [] = n.isEmpty from rfl, List.isEmpty_iff]
    constructor
    · rintro rfl
      exact ⟨[], [], rfl⟩
    · rintro ⟨s, t, ht⟩
      rcases List.append_eq_nil.mp ht.symm with ⟨h1, h2⟩
      rcases List.append_eq_nil.mp h1 with ⟨h3, h4⟩
      exact h4
  | n, d :: ds => by
    rw [show listContains n (d :: ds) = (listStarts n (d :: ds) || listContains n ds) from rfl,
      Bool.or_eq_true, listStarts_iff, listContains_iff n ds]
    constructor
    · rintro (⟨t, ht⟩ | ⟨s, t, ht⟩)
      · exact ⟨[], t, by simp [ht]⟩
      · exact ⟨d :: s, t, by simp [ht]⟩
    · rintro ⟨s, t, ht⟩
      cases s with
      | nil =>
        left
        exact ⟨t, by simpa using ht⟩
      | cons x xs =>
        right
        rw [List.cons_append, List.cons_append] at ht
        injection ht with h1 h2
        exact ⟨xs, t, h2⟩

theorem map_eq_append_split {α β : Type} (f : α → β) :
    ∀ (l : List α) (s t : List β), l.map f = s ++ t →
      ∃ s' t', l = s' ++ t' ∧ s'.map f = s ∧ t'.map f = t := by
  intro l
  induction l with
  | nil =>
    intro s t h
    rcases List.append_eq_nil.mp h.symm with ⟨rfl, rfl⟩
    exact ⟨[], [], rfl, rfl, rfl⟩
  | cons x xs ih =>
    intro s t h
    cases s with
    | nil =>
      exact ⟨[], x :: xs, rfl, rfl, by simpa using h⟩
    | cons y ys =>
      rw [List.map_cons, List.cons_append] at h
      injection h with h1 h2
      obtain ⟨s', t', rfl, hs, ht⟩ := ih ys t h2
      exact ⟨x :: s', t', rfl, by simp [h1, hs], ht⟩

/-- Case-insensitive occurrence of `needle` inside `l`: some contiguous slice
of `l` lowercases to `needle`.  This is the claim-side reading of "the raw
reply contains the token case-insensitively". -/
def occursCI (needle : List Char) (l : List Char) : Prop :=
  ∃ s w t, l = s ++ w ++ t ∧ w.map Char.toLower = needle

theorem listContains_map_toLower (needle : List Char) (l : List Char) :
    listContains needle (l.map Char.toLower) = true ↔ occursCI needle l := by
  rw [listContains_iff]
  constructor
  · rintro ⟨s, t, ht⟩
    obtain ⟨s1, t1, rfl, hs1, ht1⟩ := map_eq_append_split Char.toLower l (s ++ needle) t ht
    obtain ⟨s2, w, rfl, hs2, hw⟩ := map_eq_append_split Char.toLower s1 s needle hs1
    exact ⟨s2, w, t1, rfl, hw⟩
  · rintro ⟨s, w, t, rfl, hw⟩
    exact ⟨s.map Char.toLower, t.map Char.toLower, by simp [hw]⟩

theorem toLower_of_whitespace (c : Char) (h : c.isWhitespace = true) :
    Char.toLower c = c := by
  simp [Char.isWhitespace] at h
  rcases h with ((rfl | rfl) | rfl) | rfl <;> decide

theorem occursCI_rev (n l : List Char) :
    occursCI n l ↔ occursCI n.reverse l.reverse := by
  constructor
  · rintro ⟨s, w, t, rfl, hw⟩
    refine ⟨t.reverse, w.reverse, s.reverse, ?_, ?_⟩
    · simp [List.reverse_append, List.append_assoc]
    · rw [List.map_reverse, hw]
  · rintro ⟨s, w, t, hl, hw⟩
    have hl' : l = t.reverse ++ w.reverse ++ s.reverse := by
      have h2 := congrArg List.reverse hl
      simpa [List.reverse_append, List.append_assoc] using h2
    refine ⟨t.reverse, w.reverse, s.reverse, hl', ?_⟩
    rw [List.map_reverse, hw, List.reverse_reverse]

theorem occursCI_dropWhile (needle : List Char)
    (hws : ∀ c ∈ needle, c.isWhitespace = false) :
    ∀ l : List Char,
      occursCI needle (l.dropWhile Char.isWhitespace) ↔ occursCI needle l := by
  intro l
  induction l with
  | nil =>
    simp [List.dropWhile]
  | cons c cs ih =>
    rw [List.dropWhile_cons]
    by_cases hc : c.isWhitespace = true
    · rw [if_pos hc, ih]
      constructor
      · rintro ⟨s, w, t, rfl, hw⟩
        exact ⟨c :: s, w, t, rfl, hw⟩
      · rintro ⟨s, w, t, heq, hw⟩
        cases s with
        | cons x xs =>
          rw [List.cons_append, List.cons_append] at heq
          injection heq with h1 h2
          exact ⟨xs, w, t, h2, hw⟩
        | nil =>
          cases w with
          | nil =>
            exact ⟨[], [], cs, rfl, hw⟩
          | cons w0 ws =>
            rw [List.nil_append, List.cons_append] at heq
            injection heq with h1 h2
            exfalso
            have hmem : Char.toLower w0 ∈ needle := by
              rw [← hw]
              exact List.mem_map_of_mem Char.toLower (List.mem_cons_self w0 ws)
            have hcw : w0.isWhitespace = true := by
              rw [← h1]
              exact hc
            rw [toLower_of_whitespace w0 hcw] at hmem
            have hfalse := hws w0 hmem
            rw [hcw] at hfalse
            cases hfalse
    · rw [if_neg hc]

theorem occursCI_pyStrip (needle : List Char)
    (hws : ∀ c ∈ needle, c.isWhitespace = false) (l : List Char) :
    occursCI needle (pyStripList l) ↔ occursCI needle l := by
  have hwsr : ∀ c ∈ needle.reverse, c.isWhitespace = false := by
    intro c hc
    exact hws c (List.mem_reverse.mp hc)
  unfold pyStripList
  calc occursCI needle ((l.dropWhile Char.isWhitespace).reverse.dropWhile Char.isWhitespace).reverse
      ↔ occursCI needle.reverse
          ((l.dropWhile Char.isWhitespace).reverse.dropWhile Char.isWhitespace).reverse.reverse := by
        exact occursCI_rev needle _
    _ ↔ occursCI needle.reverse
          ((l.dropWhile Char.isWhitespace).reverse.dropWhile Char.isWhitespace) := by
        rw [List.reverse_reverse]
    _ ↔ occursCI needle.reverse (l.dropWhile Char.isWhitespace).reverse := by
        exact occursCI_dropWhile needle.reverse hwsr _
    _ ↔ occursCI needle (l.dropWhile Char.isWhitespace) := by
        exact (occursCI_rev needle _).symm
    _ ↔ occursCI needle l := occursCI_dropWhile needle hws l

theorem router_fallback_contains_iff (replyRaw : String) :
    pyIn "retrieve" (pyLower (pyStrip replyRaw)) = true ↔
      occursCI "retrieve".data replyRaw.data := by
  have hdef : pyIn "retrieve" (pyLower (pyStrip replyRaw)) =
      listContains "retrieve".data ((pyStripList replyRaw.data).map Char.toLower) := rfl
  rw [hdef, listContains_map_toLower]
  exact occursCI_pyStrip "retrieve".data (by decide) replyRaw.data

/-! ### Claim theorems -/

/-- C1 (amended): after a completed ask turn the stored SessionState is the
condensed form of the final message sequence — it holds only metadata-free
user and assistant messages (tool-call/tool-result messages are dropped),
every user message is immediately followed by an assistant message unless it
closes the list, and its length is at most `2 × max_history`.  Assistant
messages with empty content are kept, not dropped, so a turn may contribute
more than one assistant entry. -/
theorem C1_theorem (finalMessages : List Msg) (n : Int) :
    (askStoredState finalMessages n).length ≤ (n * 2).toNat ∧
    (∀ m ∈ askStoredState finalMessages n,
      (m.role = Role.user ∨ m.role = Role.assistant) ∧ m.hasToolCalls = false) ∧
    (∀ (i : Nat) (h1 : i < (askStoredState finalMessages n).length)
        (h2 : i + 1 < (askStoredState finalMessages n).length),
      ((askStoredState finalMessages n).get ⟨i, h1⟩).role = Role.user →
        ((askStoredState finalMessages n).get ⟨i + 1, h2⟩).role = Role.assistant) := by
  have hc : Condensed (askStoredState finalMessages n) :=
    condensed_condense_history finalMessages n
  exact ⟨_trim_length_le (condenseWalk finalMessages none) n,
    condensed_mem_roles hc, condensed_user_followed hc⟩

/-- C1 witness: the bound and shape facts evaluated on a concrete turn. -/
theorem C1_witness :
    (((⟨Role.assistant, "a", false⟩ : Msg).role = Role.user ∨
        (⟨Role.assistant, "a", false⟩ : Msg).role = Role.assistant) ∧
      (⟨Role.assistant, "a", false⟩ : Msg).hasToolCalls = false) ∧
    ((askStoredState [⟨Role.user, "q", false⟩, ⟨Role.assistant, "a", true⟩] 5).get
        ⟨1, by decide⟩).role = Role.assistant :=
  ⟨(C1_theorem [⟨Role.user, "q", false⟩, ⟨Role.assistant, "a", true⟩] 5).2.1
      ⟨Role.assistant, "a", false⟩ (by decide),
    (C1_theorem [⟨Role.user, "q", false⟩, ⟨Role.assistant, "a", true⟩] 5).2.2 0
      (by decide) (by decide) (by decide)⟩

/-- C1 counterexample: a turn whose model reply sequence holds an empty
tool-planning assistant message.  The stored state keeps the empty assistant
message (paired with the user) and the final answer as a second standalone
assistant message, so the state is not "exactly one user/assistant pair per
turn with intermediate empty assistant messages dropped". -/
theorem C1_counterexample :
    askStoredState
        [⟨Role.user, "q", false⟩, ⟨Role.assistant, "", true⟩,
         ⟨Role.tool, "result", false⟩, ⟨Role.assistant, "ans", false⟩] 5 =
      [⟨Role.user, "q", false⟩, ⟨Role.assistant, "", false⟩,
       ⟨Role.assistant, "ans", false⟩] ∧
    (askStoredState
        [⟨Role.user, "q", false⟩, ⟨Role.assistant, "", true⟩,
         ⟨Role.tool, "result", false⟩, ⟨Role.assistant, "ans", false⟩] 5).countP
      (fun m => m.role == Role.assistant) = 2 ∧
    (∃ m ∈ askStoredState
        [⟨Role.user, "q", false⟩, ⟨Role.assistant, "", true⟩,
         ⟨Role.tool, "result", false⟩, ⟨Role.assistant, "ans", false⟩] 5,
      m.role = Role.assistant ∧ m.content = "") := by
  decide

/-- C2 (amended): ask returns as answer the content of the most recent
assistant message of the stored state regardless of whether that content is
empty, and the empty string when the state has no assistant message; empty
assistant messages are not skipped. -/
theorem C2_theorem :
    (∀ (pre : List Msg) (a : Msg) (post : List Msg),
      a.role = Role.assistant → (∀ m ∈ post, m.role ≠ Role.assistant) →
        askAnswer (pre ++ a :: post) = a.content) ∧
    (∀ l : List Msg, (∀ m ∈ l, m.role ≠ Role.assistant) → askAnswer l = "") := by
  constructor
  · intro pre a post ha hpost
    unfold askAnswer
    have hrev : (pre ++ a :: post).reverse = post.reverse ++ a :: pre.reverse := by
      simp [List.reverse_append, List.append_assoc]
    rw [hrev, find?_append_of_none]
    · have hpa : (a.role == Role.assistant) = true := by
        simp [ha]
      simp [List.find?_cons, hpa]
    · intro m hm
      have hne := hpost m (List.mem_reverse.mp hm)
      simp [hne]
  · intro l hl
    unfold askAnswer
    have hnone : l.reverse.find? (fun m => m.role == Role.assistant) = none := by
      rw [List.find?_eq_none]
      intro x hx
      simp [hl x (List.mem_reverse.mp hx)]
    rw [hnone]

/-- C2 witness: answer extraction evaluated on a concrete stored state with a
trailing unanswered user message. -/
theorem C2_witness :
    (⟨Role.assistant, "hi", false⟩ : Msg).role = Role.assistant ∧
    (∀ m ∈ ([⟨Role.user, "q2", false⟩] : List Msg), m.role ≠ Role.assistant) ∧
    askAnswer ([⟨Role.user, "q", false⟩] ++
      ⟨Role.assistant, "hi", false⟩ :: [⟨Role.user, "q2", false⟩]) = "hi" :=
  ⟨rfl, by decide,
    C2_theorem.1 [⟨Role.user, "q", false⟩] ⟨Role.assistant, "hi", false⟩
      [⟨Role.user, "q2", false⟩] rfl (by decide)⟩

/-- C2 counterexample: when the final assistant reply of the most recent turn
has empty content, the code returns "" even though an earlier assistant
message has non-empty content; the claim's "skip empty assistant messages"
reading would return "hello". -/
theorem C2_counterexample :
    askAnswer [⟨Role.user, "q1", false⟩, ⟨Role.assistant, "hello", false⟩,
      ⟨Role.user, "q2", false⟩, ⟨Role.assistant, "", false⟩] = "" ∧
    specAnswer [⟨Role.user, "q1", false⟩, ⟨Role.assistant, "hello", false⟩,
      ⟨Role.user, "q2", false⟩, ⟨Role.assistant, "", false⟩] = some "hello" ∧
    ¬ askAnswer [⟨Role.user, "q1", false⟩, ⟨Role.assistant, "hello", false⟩,
      ⟨Role.user, "q2", false⟩, ⟨Role.assistant, "", false⟩] = "hello" := by
  decide

/-- C3: a prompt that is empty after stripping is rejected by the chat
endpoint with a 400 error before `ChatService.ask` (and hence any model
invocation) runs, and a grade request with an empty grading field is rejected
with an error message before the request to the grading pipeline (and its
judge-model call) is issued. -/
theorem C3_theorem :
    (∀ prompt : String, pyStrip prompt = "" →
      chat_endpoint prompt =
        { error := some ("prompt is required", 400), askCalled := false }) ∧
    (∀ question ground_truth answer : String,
      pyStrip question = "" ∨ pyStrip ground_truth = "" ∨ pyStrip answer = "" →
        (grade_request question ground_truth answer).requestSent = false ∧
        (grade_request question ground_truth answer).error ≠ none) := by
  constructor
  · intro prompt h
    simp [chat_endpoint, h]
  · intro q g a h
    unfold grade_request
    by_cases hq : pyStrip q = ""
    · simp [hq]
    · by_cases hg : pyStrip g = ""
      · simp [hq, hg]
      · have ha : pyStrip a = "" := by tauto
        simp [hq, hg, ha]

/-- C3 witness: the validations evaluated at a whitespace-only prompt and an
empty ground-truth field. -/
theorem C3_witness :
    pyStrip "   " = "" ∧
    chat_endpoint "   " =
      { error := some ("prompt is required", 400), askCalled := false } ∧
    (grade_request "q" "" "a").requestSent = false ∧
    (grade_request "q" "" "a").error ≠ none :=
  ⟨by decide, C3_theorem.1 "   " (by decide),
    (C3_theorem.2 "q" "" "a" (Or.inr (Or.inl (by decide)))).1,
    (C3_theorem.2 "q" "" "a" (Or.inr (Or.inl (by decide)))).2⟩

/-- C4: the source `_condense_history` coincides with the spec's condense —
pair each user message with the first following assistant message, keep
standalone assistant messages, discard every other kind, then trim — and a
trailing unanswered user message is preserved unpaired as the final stored
entry. -/
theorem C4_theorem :
    (∀ (messages : List Msg) (n : Int),
      _condense_history messages n = condenseSpec messages n) ∧
    (∀ (pre : List Msg) (u : Msg), u.role = Role.user →
      ∃ l, condenseSpecCore (pre ++ [u]) = l ++ [rebuiltUser u]) := by
  constructor
  · intro ms n
    unfold _condense_history condenseSpec
    rw [(condenseWalk_eq_spec ms).1]
  · intro pre u hu
    obtain ⟨l, hl⟩ := condenseWalk_trailing_user u hu pre none
    refine ⟨l, ?_⟩
    rw [← (condenseWalk_eq_spec (pre ++ [u])).1, hl]

/-- C4 witness: the equivalence and the trailing-user preservation evaluated
on concrete sequences. -/
theorem C4_witness :
    _condense_history [⟨Role.user, "q", false⟩, ⟨Role.tool, "t", false⟩] 3 =
      condenseSpec [⟨Role.user, "q", false⟩, ⟨Role.tool, "t", false⟩] 3 ∧
    (⟨Role.user, "q2", false⟩ : Msg).role = Role.user ∧
    ∃ l, condenseSpecCore ([⟨Role.assistant, "a", false⟩] ++
        [⟨Role.user, "q2", false⟩]) =
      l ++ [rebuiltUser ⟨Role.user, "q2", false⟩] :=
  ⟨C4_theorem.1 [⟨Role.user, "q", false⟩, ⟨Role.tool, "t", false⟩] 3, rfl,
    C4_theorem.2 [⟨Role.assistant, "a", false⟩] ⟨Role.user, "q2", false⟩ rfl⟩

/-- C5: for every positive maxHistoryTurns, trim keeps at most
`2 × maxHistoryTurns` messages and returns a suffix of its input; for every
non-positive maxHistoryTurns it returns the empty sequence. -/
theorem C5_theorem (messages : List Msg) (n : Int) :
    (0 < n → ((_trim messages n).length : Int) ≤ 2 * n ∧
      _trim messages n <:+ messages) ∧
    (n ≤ 0 → _trim messages n = []) := by
  constructor
  · intro hn
    refine ⟨?_, _trim_is_suffix messages n⟩
    have := _trim_length_le messages n
    omega
  · intro hn
    exact _trim_eq_nil messages n hn

/-- C5 witness: the bound, suffix and empty-budget behaviours evaluated on
concrete inputs. -/
theorem C5_witness :
    ((0 : Int) < 1 ∧
      ((_trim [⟨Role.user, "a", false⟩, ⟨Role.user, "b", false⟩,
          ⟨Role.user, "c", false⟩] 1).length : Int) ≤ 2 * 1 ∧
      _trim [⟨Role.user, "a", false⟩, ⟨Role.user, "b", false⟩,
          ⟨Role.user, "c", false⟩] 1 <:+
        [⟨Role.user, "a", false⟩, ⟨Role.user, "b", false⟩,
          ⟨Role.user, "c", false⟩]) ∧
    ((-1 : Int) ≤ 0 ∧ _trim [⟨Role.user, "a", false⟩] (-1) = []) :=
  ⟨⟨by norm_num,
      (C5_theorem [⟨Role.user, "a", false⟩, ⟨Role.user, "b", false⟩,
        ⟨Role.user, "c", false⟩] 1).1 (by norm_num)⟩,
    by norm_num,
    (C5_theorem [⟨Role.user, "a", false⟩] (-1)).2 (by norm_num)⟩

/-- C6: condense is idempotent — condensing an already-condensed history
changes nothing. -/
theorem C6_theorem (m : List Msg) (n : Int) :
    _condense_history (_condense_history m n) n = _condense_history m n := by
  have hw : Condensed (condenseWalk m none) := (condenseWalk_condensed m).1
  have hc : Condensed (_trim (condenseWalk m none) n) := by
    rcases _trim_cases (condenseWalk m none) n with h | ⟨k, h⟩
    · rw [h]
      exact Condensed.nil
    · rw [h]
      exact condensed_drop hw k
  unfold _condense_history
  rw [condensed_walk_id hc, _trim_idem]

/-- Compute form of the router's malformed-reply fallback. -/
theorem router_node_malformed (messages : List Msg) (replyRaw : String)
    (hne : messages ≠ []) :
    router_node true messages replyRaw RouterParse.malformed =
      { router_decision :=
          if pyIn "retrieve" (pyLower (pyStrip replyRaw)) then
            "retrieve_requirements"
          else "assistant"
        router_query := none
        modelCalled := true } := by
  have hm : messages.isEmpty = false := by
    cases messages with
    | nil => exact absurd rfl hne
    | cons a l => rfl
  simp [router_node, hm]

/-- C7: with retrieval disabled the router answers proceed (`"assistant"`)
without a model call; with a malformed model reply it decides retrieve
exactly when the raw reply contains the token "retrieve" case-insensitively
and defaults to proceed otherwise, leaving the query unset — the parse
failure is absorbed into one of the two normal decisions, never surfaced. -/
theorem C7_theorem :
    (∀ (messages : List Msg) (replyRaw : String) (replyParse : RouterParse),
      router_node false messages replyRaw replyParse =
        { router_decision := "assistant", router_query := none,
          modelCalled := false }) ∧
    (∀ (messages : List Msg) (replyRaw : String), messages ≠ [] →
      ((router_node true messages replyRaw RouterParse.malformed).router_decision =
          "retrieve_requirements" ↔ occursCI "retrieve".data replyRaw.data) ∧
      ((router_node true messages replyRaw RouterParse.malformed).router_decision =
          "retrieve_requirements" ∨
        (router_node true messages replyRaw RouterParse.malformed).router_decision =
          "assistant") ∧
      (router_node true messages replyRaw RouterParse.malformed).router_query =
        none) := by
  constructor
  · intro messages replyRaw replyParse
    rfl
  · intro messages replyRaw hne
    rw [router_node_malformed messages replyRaw hne]
    by_cases hin : pyIn "retrieve" (pyLower (pyStrip replyRaw)) = true
    · refine ⟨?_, Or.inl (by simp [hin]), rfl⟩
      simp only [hin, if_true]
      constructor
      · intro _
        exact (router_fallback_contains_iff replyRaw).mp hin
      · intro _
        trivial
    · have hfalse : pyIn "retrieve" (pyLower (pyStrip replyRaw)) = false := by
        exact Bool.not_eq_true _ ▸ eq_false_of_ne_true hin
      refine ⟨?_, Or.inr (by simp [hfalse]), rfl⟩
      simp only [hfalse, Bool.false_eq_true, if_false]
      constructor
      · intro habs
        exact absurd habs (by decide)
      · intro hocc
        have := (router_fallback_contains_iff replyRaw).mpr hocc
        rw [this] at hfalse
        cases hfalse

/-- C7 witness: the disabled short-circuit and the fallback evaluated on a
concrete malformed reply containing "RETRIEVE". -/
theorem C7_witness :
    router_node false [⟨Role.user, "hi", false⟩] "anything" RouterParse.malformed =
      { router_decision := "assistant", router_query := none,
        modelCalled := false } ∧
    ([⟨Role.user, "hi", false⟩] : List Msg) ≠ [] ∧
    ((router_node true [⟨Role.user, "hi", false⟩] "Please RETRIEVE the docs"
        RouterParse.malformed).router_decision = "retrieve_requirements" ↔
      occursCI "retrieve".data "Please RETRIEVE the docs".data) :=
  ⟨C7_theorem.1 [⟨Role.user, "hi", false⟩] "anything" RouterParse.malformed,
    by decide,
    (C7_theorem.2 [⟨Role.user, "hi", false⟩] "Please RETRIEVE the docs"
      (by decide)).1⟩

/-- C8: with retrieval disabled the retrieve node returns the empty document
sequence and never queries the index; with an empty effective query (no
router query and an empty last-message content, or no messages at all) it
likewise returns empty with no index access. -/
theorem C8_theorem :
    (∀ (messages : List Msg) (router_query : Option String)
        (index : String → List Doc),
      retrieve_node false messages router_query index =
        { retrieved_docs := [], indexQueried := false }) ∧
    (∀ (messages : List Msg) (router_query : Option String)
        (index : String → List Doc),
      router_query.getD "" = "" →
      (∀ m, messages.getLast? = some m → m.content = "") →
        retrieve_node true messages router_query index =
          { retrieved_docs := [], indexQueried := false }) := by
  constructor
  · intro messages router_query index
    rfl
  · intro messages rq index hrq hlast
    unfold retrieve_node
    cases hm : messages.getLast? with
    | none => simp
    | some m =>
      have hc := hlast m hm
      simp [hrq, hc]

/-- C8 witness: the disabled no-op and the empty-query no-op evaluated
against an index stub. -/
theorem C8_witness :
    retrieve_node false [⟨Role.user, "what is DSA1101", false⟩] (some "q")
        (fun _ => [⟨"doc"⟩]) =
      { retrieved_docs := [], indexQueried := false } ∧
    (none : Option String).getD "" = "" ∧
    retrieve_node true [⟨Role.user, "", false⟩] none (fun _ => [⟨"doc"⟩]) =
      { retrieved_docs := [], indexQueried := false } :=
  ⟨C8_theorem.1 [⟨Role.user, "what is DSA1101", false⟩] (some "q")
      (fun _ => [⟨"doc"⟩]),
    rfl,
    C8_theorem.2 [⟨Role.user, "", false⟩] none (fun _ => [⟨"doc"⟩]) rfl
      (fun m hm => by
        have : m = ⟨Role.user, "", false⟩ := by
          rw [show ([⟨Role.user, "", false⟩] : List Msg).getLast? =
            some ⟨Role.user, "", false⟩ from rfl] at hm
          exact (Option.some.injEq _ _).mp hm.symm
        rw [this])⟩

/-- C10: every entry of the caller-facing history has role "user" or
"assistant" (tool and system messages never appear), and every assistant
entry's content contains at least one non-whitespace character. -/
theorem C10_theorem (stored : List Msg) :
    ∀ e ∈ askHistoryPayload stored,
      (e.role = "user" ∨ e.role = "assistant") ∧
      (e.role = "assistant" → ∃ c ∈ e.content.data, c.isWhitespace = false) := by
  intro e he
  obtain ⟨m, hm, hf⟩ := List.mem_filterMap.mp he
  cases m with
  | mk role content htc =>
    cases role with
    | user =>
      simp [_role_for_message] at hf
      subst hf
      refine ⟨Or.inl rfl, fun habs => ?_⟩
      simp at habs
    | assistant =>
      by_cases hstrip : pyStrip content = ""
      · simp [hstrip] at hf
      · simp [hstrip, _role_for_message] at hf
        subst hf
        refine ⟨Or.inr rfl, fun _ => ?_⟩
        by_contra hall
        push_neg at hall
        apply hstrip
        rw [pyStrip_eq_empty_iff]
        intro c hc
        have h2 := hall c hc
        simpa using h2
    | tool =>
      simp at hf
    | system =>
      simp at hf

/-- C10 witness: the payload facts evaluated on a concrete stored state
containing a blank assistant message. -/
theorem C10_witness :
    ({ role := "assistant", content := "ok" } : HistoryEntry) ∈
      askHistoryPayload [⟨Role.user, "q", false⟩, ⟨Role.assistant, " ", false⟩,
        ⟨Role.assistant, "ok", false⟩] ∧
    (({ role := "assistant", content := "ok" } : HistoryEntry).role = "user" ∨
      ({ role := "assistant", content := "ok" } : HistoryEntry).role =
        "assistant") :=
  ⟨by decide,
    (C10_theorem [⟨Role.user, "q", false⟩, ⟨Role.assistant, " ", false⟩,
      ⟨Role.assistant, "ok", false⟩] { role := "assistant", content := "ok" }
      (by decide)).1⟩

/-! ### Grader embedding (`app/grading.py`)

JSON numbers are modelled as rationals; on the one-decimal score values the
grader manipulates this agrees with Python float arithmetic.  `json.loads`
is modelled for flat JSON objects with string keys and number/string values
— the shape the judge is instructed to emit and the only shape whose parse
the grader consumes as a dict. -/

/-- Opening brace character (code point 123). -/
def lbrace : Char := Char.ofNat 123

/-- Closing brace character (code point 125). -/
def rbrace : Char := Char.ofNat 125

/-- JSON / regex-captured values feeding the grader: numbers or strings. -/
inductive PyVal where
  | num (q : ℚ)
  | str (s : String)
  deriving DecidableEq, Repr

/-- Scan a JSON string literal body (after the opening quote) up to the
closing quote; escape sequences are outside the modelled fragment. -/
def scanStringLit : List Char → Option (List Char × List Char)
  | [] => none
  | c :: rest =>
    if c == '"' then some ([], rest)
    else if c == '\\' then none
    else
      match scanStringLit rest with
      | some (s, r) => some (c :: s, r)
      | none => none

/-- Take the maximal run of leading ASCII digits. -/
def scanDigits : List Char → List Char × List Char
  | [] => ([], [])
  | c :: rest =>
    if c.isDigit then
      let (d, r) := scanDigits rest
      (c :: d, r)
    else ([], c :: rest)

/-- Numeric value of a digit run. -/
def digitsToNat (l : List Char) : Nat :=
  l.foldl (fun acc c => acc * 10 + (c.toNat - 48)) 0

/-- Addition on rationals, written through `mkRat` so that it reduces inside
the kernel (the library's `Rat.add` is sealed). -/
def ratAdd (a b : ℚ) : ℚ :=
  mkRat (a.num * b.den + b.num * a.den) (a.den * b.den)

/-- Multiplication on rationals through `mkRat`. -/
def ratMul (a b : ℚ) : ℚ :=
  mkRat (a.num * b.num) (a.den * b.den)

/-- Subtraction on rationals through `mkRat`. -/
def ratSub (a b : ℚ) : ℚ :=
  mkRat (a.num * b.den - b.num * a.den) (a.den * b.den)

/-- Negation on rationals through `mkRat`. -/
def ratNeg (a : ℚ) : ℚ :=
  mkRat (-a.num) a.den

/-- Scan a number of the shape `-?\d+(\.\d+)?` and return its value. -/
def scanNumber (l : List Char) : Option (ℚ × List Char) :=
  let (neg, l1) :=
    match l with
    | c :: rest => if c == '-' then (true, rest) else (false, l)
    | [] => (false, [])
  let (ds, l2) := scanDigits l1
  if ds.isEmpty then none
  else
    let intPart : ℚ := mkRat (Int.ofNat (digitsToNat ds)) 1
    match l2 with
    | c :: l3 =>
      if c == '.' then
        let (fs, l4) := scanDigits l3
        if fs.isEmpty then some (if neg then ratNeg intPart else intPart, l2)
        else
          let q := ratAdd intPart
            (mkRat (Int.ofNat (digitsToNat fs)) (Nat.pow 10 fs.length))
          some (if neg then ratNeg q else q, l4)
      else some (if neg then ratNeg intPart else intPart, l2)
    | [] => some (if neg then ratNeg intPart else intPart, [])

/-- Scan a JSON value of the modelled fragment: a string or a number. -/
def scanValue (l : List Char) : Option (PyVal × List Char) :=
  match l with
  | c :: rest =>
    if c == '"' then
      (scanStringLit rest).map (fun p => (PyVal.str (String.mk p.1), p.2))
    else (scanNumber l).map (fun p => (PyVal.num p.1, p.2))
  | [] => none

/-- Parse the comma-separated `"key": value` entries of a JSON object body,
ending at the closing brace.  `fuel` bounds the recursion by the input
length. -/
def parseEntries : Nat → List Char → Option (List (String × PyVal) × List Char)
  | 0, _ => none
  | fuel + 1, l =>
    let l1 := l.dropWhile Char.isWhitespace
    match l1 with
    | c :: rest =>
      if c == '"' then
        match scanStringLit rest with
        | none => none
        | some (key, r1) =>
          let r2 := r1.dropWhile Char.isWhitespace
          match r2 with
          | c2 :: r3 =>
            if c2 == ':' then
              let r4 := r3.dropWhile Char.isWhitespace
              match scanValue r4 with
              | none => none
              | some (v, r5) =>
                let r6 := r5.dropWhile Char.isWhitespace
                match r6 with
                | c3 :: r7 =>
                  if c3 == ',' then
                    match parseEntries fuel r7 with
                    | some (entries, r8) =>
                      some ((String.mk key, v) :: entries, r8)
                    | none => none
                  else if c3 == rbrace then some ([(String.mk key, v)], r7)
                  else none
                | [] => none
            else none
          | [] => none
      else none
    | [] => none

/-- Parse a whole character sequence as one flat JSON object (the modelled
`json.loads` fragment); any leftover non-whitespace input is a parse
failure. -/
def parseJsonDictList (l : List Char) : Option (List (String × PyVal)) :=
  let l1 := l.dropWhile Char.isWhitespace
  match l1 with
  | c :: rest =>
    if c == lbrace then
      let r := rest.dropWhile Char.isWhitespace
      match r with
      | c2 :: rest2 =>
        if c2 == rbrace then
          if (rest2.dropWhile Char.isWhitespace).isEmpty then some [] else none
        else
          match parseEntries (r.length + 1) r with
          | some (entries, rem) =>
            if (rem.dropWhile Char.isWhitespace).isEmpty then some entries
            else none
          | none => none
      | [] => none
    else none
  | [] => none

/-- Embedding of `grading._extract_json_object`: strip the text, try a full
parse, then retry on the span from the first opening brace to the last
closing brace; anything else yields `none`. -/
def _extract_json_object (text : String) : Option (List (String × PyVal)) :=
  let candidate := pyStripList text.data
  if candidate.isEmpty then none
  else
    match parseJsonDictList candidate with
    | some d => some d
    | none =>
      match candidate.findIdx? (fun c => c == lbrace),
          candidate.reverse.findIdx? (fun c => c == rbrace) with
      | some start, some rend =>
        let endIdx := candidate.length - 1 - rend
        if start < endIdx then
          parseJsonDictList ((candidate.drop start).take (endIdx + 1 - start))
        else none
      | some _, none => none
      | none, _ => none

/-- Word character of the regex classes `[A-Za-z0-9_]`. -/
def isWordChar (c : Char) : Bool :=
  c.isAlpha || c.isDigit || c == '_'

/-- Match `needle` case-insensitively at the head of the input, returning the
rest. -/
def matchCI : List Char → List Char → Option (List Char)
  | [], rest => some rest
  | _ :: _, [] => none
  | k :: ks, c :: cs => if Char.toLower c == k then matchCI ks cs else none

/-- Match one of the criterion keywords of `SCORE_PATTERN` at the head of the
input (case-insensitive, not followed by a word character), in the
alternation order of the regex. -/
def matchKeyword (l : List Char) : Option (String × List Char) :=
  let check := fun (kw : String) =>
    match matchCI kw.data l with
    | some rest =>
      match rest with
      | c :: _ => if isWordChar c then none else some (kw, rest)
      | [] => some (kw, rest)
    | none => none
  match check "accuracy" with
  | some r => some r
  | none =>
    match check "relevance" with
    | some r => some r
    | none => check "coherence"

/-- Scan a number of the shape `-?\d+(?:\.\d+)?` and return the matched
characters (the regex captures the text of group 2). -/
def scanNumberChars (l : List Char) : Option (List Char × List Char) :=
  let (pre, l1) :=
    match l with
    | c :: rest => if c == '-' then ([c], rest) else (([] : List Char), l)
    | [] => ([], [])
  let (ds, l2) := scanDigits l1
  if ds.isEmpty then none
  else
    match l2 with
    | c :: l3 =>
      if c == '.' then
        let (fs, l4) := scanDigits l3
        if fs.isEmpty then some (pre ++ ds, l2)
        else some (pre ++ ds ++ c :: fs, l4)
      else some (pre ++ ds, l2)
    | [] => some (pre ++ ds, [])

/-- Attempt a full `SCORE_PATTERN` match at the head of the input (the
caller has already checked the left word boundary): keyword, `\s*`, `:` or
`=`, `\s*`, number.  Returns the lowered keyword, the number text and the
rest. -/
def tryMatch (l : List Char) : Option (String × List Char × List Char) :=
  match matchKeyword l with
  | none => none
  | some (kw, r1) =>
    let r2 := r1.dropWhile Char.isWhitespace
    match r2 with
    | c :: r3 =>
      if c == ':' || c == '=' then
        let r4 := r3.dropWhile Char.isWhitespace
        match scanNumberChars r4 with
        | some (numChars, rest) => some (kw, numChars, rest)
        | none => none
      else none
    | [] => none

/-- Embedding of `SCORE_PATTERN.finditer`: left-to-right non-overlapping
matches; `prevIsWord` carries the left word-boundary lookbehind (a match
always ends in a digit, a word character). -/
def regexFindAll : Nat → List Char → Bool → List (String × List Char)
  | 0, _, _ => []
  | _ + 1, [], _ => []
  | fuel + 1, c :: rest, prevIsWord =>
    if prevIsWord then
      regexFindAll fuel rest (isWordChar c)
    else
      match tryMatch (c :: rest) with
      | some (kw, numChars, rest') =>
        (kw, numChars) :: regexFindAll fuel rest' true
      | none => regexFindAll fuel rest (isWordChar c)

/-- Last binding of `key` in an association list — the lookup of a Python
dict built by repeated assignment. -/
def lastAssoc {α : Type} (l : List (String × α)) (key : String) : Option α :=
  (l.reverse.find? (fun p => p.1 == key)).map (fun p => p.2)

/-- Python `float(value)` on the values the parser produces: numbers pass
through, numeric strings are parsed, anything else fails. -/
def pyFloat (v : PyVal) : Option ℚ :=
  match v with
  | PyVal.num q => some q
  | PyVal.str s =>
    match scanNumber (pyStripList s.data) with
    | some (q, rest) => if rest.isEmpty then some q else none
    | none => none

/-- Floor of a rational as `⌊num / den⌋`, kept kernel-computable. -/
def ratFloor (q : ℚ) : Int :=
  q.num.fdiv (q.den : Int)

/-- Boolean `<` on rationals through the kernel-computable `Rat.blt`. -/
def ratLt (a b : ℚ) : Bool :=
  Rat.blt a b

/-- Boolean `≤` on rationals through the kernel-computable `Rat.blt`. -/
def ratLe (a b : ℚ) : Bool :=
  !(Rat.blt b a)

/-- Python `min(a, b)` on two numbers. -/
def pyMin (a b : ℚ) : ℚ :=
  if ratLe a b then a else b

/-- Python `max(a, b)` on two numbers. -/
def pyMax (a b : ℚ) : ℚ :=
  if ratLe b a then a else b

/-- Python `round(x, 1)` (round-half-to-even), exact on the rational model. -/
def pyRound1 (q : ℚ) : ℚ :=
  let x := ratMul q (mkRat 10 1)
  let f : Int := ratFloor x
  let frac := ratSub x (mkRat f 1)
  let r : Int :=
    if ratLt frac (mkRat 1 2) then f
    else if ratLt (mkRat 1 2) frac then f + 1
    else if f % 2 = 0 then f else f + 1
  mkRat r 10

/-- Lexicographic code-point order on character lists (Python string `<=`). -/
def charListLe : List Char → List Char → Bool
  | [], _ => true
  | _ :: _, [] => false
  | c :: cs, d :: ds =>
    if c == d then charListLe cs ds else decide (c.toNat < d.toNat)

/-- Insert into a sorted list of strings. -/
def insertSorted (s : String) : List String → List String
  | [] => [s]
  | x :: xs => if charListLe s.data x.data then s :: x :: xs else x :: insertSorted s xs

/-- Python `sorted` on a list of strings. -/
def sortStrings (l : List String) : List String :=
  l.foldr insertSorted []

/-- Criterion names, in the tuple order of `EXPECTED_SCORE_KEYS`. -/
def EXPECTED_SCORE_KEYS : List String := ["accuracy", "relevance", "coherence"]

/-- Outcome of processing one expected criterion key. -/
inductive KeyOutcome where
  | missing
  | invalid
  | score (q : ℚ)
  deriving DecidableEq, Repr

/-- Per-key step of `_parse_scores`: missing value, non-numeric value, or a
clamped rounded score. -/
def keyOutcome (raw : List (String × PyVal)) (key : String) : KeyOutcome :=
  match lastAssoc raw key with
  | none => KeyOutcome.missing
  | some v =>
    match pyFloat v with
    | none => KeyOutcome.invalid
    | some q => KeyOutcome.score (pyMax (mkRat 0 1) (pyMin (mkRat 1 1) (pyRound1 q)))

/-- Result triple of `grading._parse_scores`: the scores dict (in expected
key order), the assembled error message, and the raw parsed JSON object. -/
structure ScoresResult where
  scores : List (String × ℚ)
  error : Option String
  parsed_json : Option (List (String × PyVal))
  deriving DecidableEq, Repr

/-- Embedding of `grading._parse_scores`: take the parsed JSON object's
entries with lowered keys when the parse produced a non-empty dict (Python's
`if parsed_json:` treats `None` and `{}` alike), otherwise the regex
matches; then clamp/round each expected criterion and assemble the error
message parts. -/
def _parse_scores (text : String) : ScoresResult :=
  let parsed_json := _extract_json_object text
  let raw_values : List (String × PyVal) :=
    match parsed_json with
    | some entries =>
      if entries.isEmpty then
        (regexFindAll text.data.length text.data false).map
          (fun p => (p.1, PyVal.str (String.mk p.2)))
      else entries.map (fun p => (pyLower p.1, p.2))
    | none =>
      (regexFindAll text.data.length text.data false).map
        (fun p => (p.1, PyVal.str (String.mk p.2)))
  let outcomes := EXPECTED_SCORE_KEYS.map (fun k => (k, keyOutcome raw_values k))
  let scores := outcomes.filterMap (fun p =>
    match p.2 with
    | KeyOutcome.score q => some (p.1, q)
    | _ => none)
  let missing_keys := outcomes.filterMap (fun p =>
    match p.2 with
    | KeyOutcome.missing => some p.1
    | _ => none)
  let invalid_keys := outcomes.filterMap (fun p =>
    match p.2 with
    | KeyOutcome.invalid => some p.1
    | _ => none)
  let error_parts :=
    (if invalid_keys.isEmpty then []
     else ["Invalid numeric value for: " ++
        String.intercalate ", " (sortStrings invalid_keys)]) ++
    (if missing_keys.isEmpty then []
     else ["Missing scores for: " ++
        String.intercalate ", " (sortStrings missing_keys)]) ++
    (if scores.isEmpty then ["Grader response did not contain usable scores."]
     else [])
  let error_message :=
    if error_parts.isEmpty then none else some (String.intercalate " " error_parts)
  { scores := scores, error := error_message, parsed_json := parsed_json }

/-- Evaluation dict assembled by `ResponseGrader.grade` after a successful
judge invocation (scores, total, error), together with the
`used_regex_fallback` flag of the developer payload. -/
structure Evaluation where
  scores : Option (List (String × ℚ))
  total : Option ℚ
  error : Option String
  used_regex_fallback : Bool
  deriving DecidableEq, Repr

/-- Post-model assembly of `ResponseGrader.grade` (`grading.py` lines
189–224): strip the judge reply, parse scores, and report total and error;
`used_regex_fallback` is `parsed_json is None`. -/
def grade_eval (responseContent : String) : Evaluation :=
  let raw_text := pyStrip responseContent
  let r := _parse_scores raw_text
  { scores := if r.scores.isEmpty then none else some r.scores
    total :=
      if r.scores.isEmpty then none
      else some (pyRound1 (r.scores.foldl (fun acc p => ratAdd acc p.2) (mkRat 0 1)))
    error := r.error
    used_regex_fallback := r.parsed_json.isNone }

/-- C9: layered grader parsing on the claim's two judge outputs — the
well-formed JSON reply parses directly to accuracy 0.8, relevance 1.0,
coherence 0.9 with total 2.7 and no regex fallback, and the non-structured
reply `accuracy: 0.7, relevance=0.5, coherence: 1` parses to 0.7 / 0.5 / 1.0
through the regex path with `used_regex_fallback = true`. -/
theorem C9_theorem :
    _parse_scores "\x7b\"accuracy\":0.8,\"relevance\":1.0,\"coherence\":0.9\x7d" =
      { scores := [("accuracy", mkRat 4 5), ("relevance", mkRat 1 1),
          ("coherence", mkRat 9 10)],
        error := none,
        parsed_json := some [("accuracy", PyVal.num (mkRat 4 5)),
          ("relevance", PyVal.num (mkRat 1 1)),
          ("coherence", PyVal.num (mkRat 9 10))] } ∧
    grade_eval "\x7b\"accuracy\":0.8,\"relevance\":1.0,\"coherence\":0.9\x7d" =
      { scores := some [("accuracy", mkRat 4 5), ("relevance", mkRat 1 1),
          ("coherence", mkRat 9 10)],
        total := some (mkRat 27 10), error := none,
        used_regex_fallback := false } ∧
    _parse_scores "accuracy: 0.7, relevance=0.5, coherence: 1" =
      { scores := [("accuracy", mkRat 7 10), ("relevance", mkRat 1 2),
          ("coherence", mkRat 1 1)],
        error := none, parsed_json := none } ∧
    (grade_eval "accuracy: 0.7, relevance=0.5, coherence: 1").used_regex_fallback =
      true := by
  decide

end DsaChat
